import Mathlib

/-!
Shallow embedding of the drsm stack-machine core: the tokenizer
(src/token.rs), the word model (src/word.rs), the error taxonomy
(src/error.rs) and the machine with its checker, evaluator and
read-eval driver (src/machine.rs).

Conventions of the embedding:
* `i64` values are `Int`s; the wrapping arithmetic of the source
  (`wrapping_add` and friends) is modelled by an explicit reduction
  modulo 2^64 into the signed range.
* The operand stack is a `List Int` whose head is the TOP of the
  stack (the last element of the source's `Vec<i64>`).
* The `IndexMap` environment is an insertion-ordered association
  list with unique keys; `insert` replaces an existing binding in
  place, otherwise appends.
* Fallible operations return `Except Err` / `Option Err`.  A Rust
  panic (the `expect(…)` calls of `eval_inner` and the division by
  zero of `wrapping_div`/`wrapping_rem`) is a distinct `Outcome.panic`
  carrying the panic message.
* `eval_inner` recurses through stored bodies, and mutual recursion
  between definitions is unbounded in the source (bounded only by the
  host call stack); the embedding therefore takes a fuel parameter,
  consumed only when a stored body is entered.  `Outcome.spin` marks
  fuel exhaustion and corresponds to no terminating source behaviour.
-/

deriving instance DecidableEq for Except

namespace Drsm

/-- Errors of the interpreter, translated from `enum Error` in src/error.rs. -/
inductive Err where
  | Bad
  | NaN (found : String)
  | Small (op : String) (required : Nat) (available : Nat)
  | Parsing (msg : String)
  | Unknown (op : String)
  | SelfRef (name : String)
  | Reserved
  | DefName
  | NumNotName (n : Int)
  | CoreNotName (s : String)
  | DefBody
  | NNZ (op : String)
deriving DecidableEq

/-- Tokens, translated from `enum Token` in src/token.rs.  `defKw` is the
`def` keyword (`Token::Def`); `core` carries the matched slice of the
core-word regex `(drop|swap|dup|add|sub|mul|div|mod|zero[?]|print)`. -/
inductive Token where
  | defKw
  | core (s : String)
  | num (n : Int)
  | hex (n : Int)
  | custom (s : String)
deriving DecidableEq

/-- The alternatives of the `Token::Core` regex in src/token.rs. -/
def coreSpellings : List String :=
  ["drop", "swap", "dup", "add", "sub", "mul", "div", "mod", "zero?", "print"]

/-- A `[[:xdigit:]]` character. -/
def isHexDigitChar (c : Char) : Bool :=
  c.isDigit || ('a' ≤ c && c ≤ 'f') || ('A' ≤ c && c ≤ 'F')

/-- Value of a string of decimal digits. -/
def decVal (cs : List Char) : Nat :=
  cs.foldl (fun a c => 10 * a + (c.toNat - 48)) 0

/-- Value of one hexadecimal digit. -/
def hexDigitVal (c : Char) : Nat :=
  if c.isDigit then c.toNat - 48
  else if 'a' ≤ c && c ≤ 'f' then c.toNat - 87
  else c.toNat - 55

/-- Value of a string of hexadecimal digits. -/
def hexVal (cs : List Char) : Nat :=
  cs.foldl (fun a c => 16 * a + hexDigitVal c) 0

/-- Smallest `i64` value. -/
def i64Min : Int := -9223372036854775808

/-- Largest `i64` value. -/
def i64Max : Int := 9223372036854775807

/-- The chunk matches the decimal-literal regex `-?[[:digit:]]+`. -/
def isDecChunk (cs : List Char) : Bool :=
  match cs with
  | '-' :: rest => !rest.isEmpty && rest.all Char.isDigit
  | _ => !cs.isEmpty && cs.all Char.isDigit

/-- The chunk matches the hexadecimal-literal regex `#[[:xdigit:]]+`. -/
def isHexChunk (cs : List Char) : Bool :=
  match cs with
  | '#' :: rest => !rest.isEmpty && rest.all isHexDigitChar
  | _ => false

/-- Decimal literal decoding: `lex.slice().parse::<i64>()`.  Out-of-range
values produce the `ParseIntError` messages Rust uses. -/
def parseDec (cs : List Char) : Except Err Token :=
  let v : Int :=
    match cs with
    | '-' :: rest => -(decVal rest : Int)
    | _ => (decVal cs : Int)
  if v > i64Max then .error (.Parsing "number too large to fit in target type")
  else if v < i64Min then .error (.Parsing "number too small to fit in target type")
  else .ok (.num v)

/-- Hexadecimal literal decoding: `i64::from_str_radix(&slice[1..], 16)`;
unsigned digits, so only overflow above `i64::MAX` can fail. -/
def parseHex (cs : List Char) : Except Err Token :=
  let v : Int := (hexVal cs.tail : Nat)
  if v > i64Max then .error (.Parsing "number too large to fit in target type")
  else .ok (.hex v)

/-- Classify one maximal whitespace-free chunk of the input as a token.

The logos lexer of src/token.rs skips `\s` and otherwise picks the longest
match, breaking ties by priority.  Within a maximal run of non-whitespace
characters the catch-all rule `\S+` (priority 0) always matches the whole
run, so the winning token always spans the whole run: it is `Def` exactly
for `def`, a `Core` token exactly for the ten core spellings, a decimal or
hexadecimal literal exactly when the run matches those regexes (all of
which have priority above 0), and otherwise `Custom`.  Tokenizing a line
is therefore classifying each whitespace-separated chunk. -/
def classify (cs : List Char) : Except Err Token :=
  let s := String.mk cs
  if s = "def" then .ok .defKw
  else if coreSpellings.contains s then .ok (.core s)
  else if isDecChunk cs then parseDec cs
  else if isHexChunk cs then parseHex cs
  else .ok (.custom s)

/-- Maximal whitespace-free chunks of a character list, in order. -/
def chunks (cs : List Char) : List (List Char) :=
  (cs.foldr
    (fun c acc =>
      if c.isWhitespace then [] :: acc
      else
        match acc with
        | [] => [[c]]
        | h :: t => (c :: h) :: t)
    []).filter (fun c => !c.isEmpty)

/-- Tokenize a whole line: `Token::lexer(s).collect::<Result<Vec<_>, _>>()`;
the first lexical error aborts the whole line. -/
def tokenize (s : String) : Except Err (List Token) :=
  (chunks s.data).mapM classify

/-- Words, translated from `enum Word` in src/word.rs. -/
inductive Word where
  | pop
  | swap
  | dup
  | add
  | sub
  | mul
  | div
  | mod
  | zero
  | num (n : Int)
  | custom (s : String)
deriving DecidableEq

/-- Display form of a word (`impl fmt::Display for Word`, src/word.rs).
Note the spelling `pop` for `Word::Pop`, while the token regex of
src/token.rs spells the corresponding core token `drop`. -/
def Word.toString : Word → String
  | .pop => "pop"
  | .swap => "swap"
  | .dup => "dup"
  | .add => "add"
  | .sub => "sub"
  | .mul => "mul"
  | .div => "div"
  | .mod => "mod"
  | .zero => "zero?"
  | .num n => ToString.toString n
  | .custom w => w

/-- Conversion of a token to a word (`impl TryFrom<Token> for Word`,
src/word.rs).  The `Token::Core` arm compares the slice against the
Display strings of the core words, in source order. -/
def Word.tryFromToken : Token → Except Err Word
  | .defKw => .error .Reserved
  | .core w =>
    if w = Word.pop.toString then .ok .pop
    else if w = Word.swap.toString then .ok .swap
    else if w = Word.dup.toString then .ok .dup
    else if w = Word.add.toString then .ok .add
    else if w = Word.sub.toString then .ok .sub
    else if w = Word.mul.toString then .ok .mul
    else if w = Word.div.toString then .ok .div
    else if w = Word.mod.toString then .ok .mod
    else if w = Word.zero.toString then .ok .zero
    else .error (.Unknown w)
  | .num n => .ok (.num n)
  | .hex n => .ok (.num n)
  | .custom w => .ok (.custom w)

/-- `Word::into_name` (src/word.rs). -/
def Word.intoName : Word → Except Err String
  | .custom w => .ok w
  | .num n => .error (.NumNotName n)
  | w => .error (.CoreNotName w.toString)

/-- `impl PartialEq<String> for Word` (src/word.rs): only a custom word
equals a string. -/
def wordEqStr : Word → String → Bool
  | .custom w, s => w = s
  | _, _ => false

/-- The word is a `Word::Custom`. -/
def Word.isCustom : Word → Bool
  | .custom _ => true
  | _ => false

/-- The insertion-ordered `IndexMap<String, Vec<Word>>` environment. -/
abbrev Env := List (String × List Word)

/-- `IndexMap::get`. -/
def envGet (env : Env) (k : String) : Option (List Word) :=
  (env.find? (fun p => p.1 = k)).map Prod.snd

/-- `IndexMap::contains_key`. -/
def envContains (env : Env) (k : String) : Bool :=
  env.any (fun p => p.1 = k)

/-- `IndexMap::insert`: replace in place when the key exists, else append. -/
def envInsert (env : Env) (k : String) (v : List Word) : Env :=
  if envContains env k then env.map (fun p => if p.1 = k then (k, v) else p)
  else env ++ [(k, v)]

/-- Outcome of running evaluator code: normal return, an `Err` returned
through `Result`, a Rust panic with its message, or fuel exhaustion of the
embedding (non-termination of the source's unbounded recursion). -/
inductive Outcome where
  | ok
  | err (e : Err)
  | panic (msg : String)
  | spin
deriving DecidableEq

/-- Reduce an integer into the signed 64-bit range, the semantics of the
`wrapping_*` arithmetic of `eval_inner`. -/
def wrap64 (n : Int) : Int :=
  (n + 9223372036854775808) % 18446744073709551616 - 9223372036854775808

/-- The `for v in body { eval_inner(env, stack, v)?; }` loop of the
`Word::Custom` arm of `eval_inner`: run `step` over the body words in
order, stopping at the first non-ok outcome. -/
def evalBodyWith (step : List Int → Word → List Int × Outcome) :
    List Int → List Word → List Int × Outcome
  | stack, [] => (stack, .ok)
  | stack, v :: vs =>
    match step stack v with
    | (s1, .ok) => evalBodyWith step s1 vs
    | r => r

/-- `eval_inner` (src/machine.rs).  Bare `stack.pop().expect(…)` calls
of the source become `Outcome.panic` with the same message when the stack
is empty, and `wrapping_div`/`wrapping_rem` panic on a zero divisor.
Note that the `Word::Custom` arm evaluates the stored body words by
calling `eval_inner` directly, without going through `Machine::check`. -/
def evalInner (env : Env) (fuel : Nat) (stack : List Int) (w : Word) :
    List Int × Outcome :=
  match w with
  | .pop =>
    match stack with
    | _ :: rest => (rest, .ok)
    | [] => ([], .panic "Internal error @ pop")
  | .swap =>
    match stack with
    | x :: y :: rest => (y :: x :: rest, .ok)
    | [_] => ([], .panic "Internal error @ swap 2")
    | [] => ([], .panic "Internal error @ swap 1")
  | .dup =>
    match stack with
    | x :: rest => (x :: x :: rest, .ok)
    | [] => ([], .panic "Internal error @ dup")
  | .add =>
    match stack with
    | x :: y :: rest => (wrap64 (x + y) :: rest, .ok)
    | [_] => ([], .panic "Internal error @ add 2")
    | [] => ([], .panic "Internal error @ add 1")
  | .sub =>
    match stack with
    | x :: y :: rest => (wrap64 (x - y) :: rest, .ok)
    | [_] => ([], .panic "Internal error @ sub 2")
    | [] => ([], .panic "Internal error @ sub 1")
  | .mul =>
    match stack with
    | x :: y :: rest => (wrap64 (x * y) :: rest, .ok)
    | [_] => ([], .panic "Internal error @ mul 2")
    | [] => ([], .panic "Internal error @ mul 1")
  | .div =>
    match stack with
    | x :: y :: rest =>
      if y = 0 then (rest, .panic "attempt to divide by zero")
      else (wrap64 (Int.tdiv x y) :: rest, .ok)
    | [_] => ([], .panic "Internal error @ div 2")
    | [] => ([], .panic "Internal error @ div 1")
  | .mod =>
    match stack with
    | x :: y :: rest =>
      if y = 0 then
        (rest, .panic "attempt to calculate the remainder with a divisor of zero")
      else (wrap64 (Int.tmod x y) :: rest, .ok)
    | [_] => ([], .panic "Internal error @ mod 2")
    | [] => ([], .panic "Internal error @ mod 1")
  | .zero =>
    match stack with
    | x :: y :: z :: rest => ((if x = 0 then y else z) :: rest, .ok)
    | [_, _] => ([], .panic "Internal error at zero? 3")
    | [_] => ([], .panic "Internal error at zero? 2")
    | [] => ([], .panic "Internal error at zero? 1")
  | .num n => (n :: stack, .ok)
  | .custom name =>
    match envGet env name with
    | none => (stack, .err (.Unknown name))
    | some body =>
      match fuel with
      | 0 => (stack, .spin)
      | f + 1 => evalBodyWith (fun s v => evalInner env f s v) stack body

/-- The stack machine (src/machine.rs): an environment of definitions and
an operand stack, both created empty. -/
structure Machine where
  env : Env
  stack : List Int
deriving DecidableEq

/-- `Machine::default()`. -/
def Machine.default : Machine := ⟨[], []⟩

/-- `Machine::check` (src/machine.rs): required depth by word kind, then
the non-zero-divisor test on the second element from the top for
`div`/`mod`, then existence of a custom word's definition.  The source
indexes `stack[s - 2]`, the second element from the top, which is index 1
of the embedded top-first list; the `getD` default is never reached since
the arity test has already ensured depth at least 2. -/
def Machine.check (m : Machine) (w : Word) : Option Err :=
  let s := m.stack.length
  let r : Nat :=
    match w with
    | .num _ | .custom _ => 0
    | .pop | .dup => 1
    | .swap | .add | .sub | .mul | .div | .mod => 2
    | .zero => 3
  if s < r then some (.Small w.toString r s)
  else if (w = Word.div ∨ w = Word.mod) ∧ m.stack.getD 1 1 = 0 then
    some (.NNZ w.toString)
  else if w.isCustom = true ∧ envContains m.env w.toString = false then
    some (.Unknown w.toString)
  else none

/-- `Machine::eval` (src/machine.rs): check, then `eval_inner`. -/
def Machine.eval (m : Machine) (fuel : Nat) (w : Word) : Machine × Outcome :=
  match m.check w with
  | some e => (m, .err e)
  | none =>
    let r := evalInner m.env fuel m.stack w
    ({ m with stack := r.1 }, r.2)

/-- The `Token::Def` arm of `Machine::read_eval` (src/machine.rs): the
token after `def` becomes the name, all remaining tokens of the line
become the body; an empty body and a body containing the name itself
(via `PartialEq<String>`) are rejected before the insertion. -/
def defHandle (m : Machine) (ts : List Token) : Machine × Outcome :=
  match ts with
  | [] => (m, .err .DefName)
  | nt :: body =>
    match (Word.tryFromToken nt).bind Word.intoName with
    | .error e => (m, .err e)
    | .ok k =>
      match body.mapM Word.tryFromToken with
      | .error e => (m, .err e)
      | .ok us =>
        if us.isEmpty then (m, .err .DefBody)
        else if us.any (fun u => wordEqStr u k) then (m, .err (.SelfRef k))
        else ({ m with env := envInsert m.env k us }, .ok)

/-- The token loop of `Machine::read_eval` (src/machine.rs): a `Def`
token anywhere in evaluation position hands the rest of the line to the
definition parser and stops; any other token is converted to a word and
evaluated, the first failure stopping the line with the machine state at
the failure point. -/
def readEvalTokens (fuel : Nat) : Machine → List Token → Machine × Outcome
  | m, [] => (m, .ok)
  | m, t :: ts =>
    if t = Token.defKw then defHandle m ts
    else
      match Word.tryFromToken t with
      | .error e => (m, .err e)
      | .ok w =>
        match m.eval fuel w with
        | (m1, .ok) => readEvalTokens fuel m1 ts
        | r => r

/-- `Machine::read_eval` (src/machine.rs): tokenize the whole line first,
aborting on a lexical error, then run the token loop. -/
def readEval (fuel : Nat) (m : Machine) (s : String) : Machine × Outcome :=
  match tokenize s with
  | .error e => (m, .err e)
  | .ok ts => readEvalTokens fuel m ts

end Drsm

namespace Drsm

/-! Helper lemmas shared by the claim theorems. -/

/-- Evaluation of a single word never touches the environment: `eval_inner`
takes the environment by shared reference and only the stack mutably. -/
theorem Machine.eval_env (m : Machine) (fuel : Nat) (w : Word) :
    ((m.eval fuel w).1).env = m.env := by
  cases h : m.check w with
  | some e => simp [Machine.eval, h]
  | none => simp [Machine.eval, h]

/-- The token loop leaves the environment unchanged when no `def` token
occurs in the list. -/
theorem readEvalTokens_env (fuel : Nat) :
    ∀ (ts : List Token) (m : Machine), Token.defKw ∉ ts →
      ((readEvalTokens fuel m ts).1).env = m.env := by
  intro ts
  induction ts with
  | nil => intro m _; simp [readEvalTokens]
  | cons t ts ih =>
    intro m h
    have ht : ¬ (t = Token.defKw) := fun e => h (by simp [e])
    have hts : Token.defKw ∉ ts := fun hx => h (List.mem_cons_of_mem _ hx)
    rw [readEvalTokens, if_neg ht]
    cases hw : Word.tryFromToken t with
    | error e => simp
    | ok w =>
      dsimp only
      have henv := Machine.eval_env m fuel w
      rcases hm : m.eval fuel w with ⟨m1, o⟩
      rw [hm] at henv
      cases o with
      | ok => dsimp only; rw [ih m1 hts]; exact henv
      | err e => exact henv
      | panic s => exact henv
      | spin => exact henv

/-- Running the token loop over a successfully evaluated `def`-free prefix
and then more tokens equals running the prefix first and continuing from
the machine it produces. -/
theorem readEvalTokens_append (fuel : Nat) (bs : List Token) :
    ∀ (as : List Token) (m m' : Machine), Token.defKw ∉ as →
      readEvalTokens fuel m as = (m', Outcome.ok) →
      readEvalTokens fuel m (as ++ bs) = readEvalTokens fuel m' bs := by
  intro as
  induction as with
  | nil =>
    intro m m' _ h
    rw [readEvalTokens] at h
    have h1 : m = m' := congrArg Prod.fst h
    subst h1
    rfl
  | cons t ts ih =>
    intro m m' h hrun
    have ht : ¬ (t = Token.defKw) := fun e => h (by simp [e])
    have hts : Token.defKw ∉ ts := fun hx => h (List.mem_cons_of_mem _ hx)
    rw [List.cons_append, readEvalTokens, if_neg ht]
    rw [readEvalTokens, if_neg ht] at hrun
    cases hw : Word.tryFromToken t with
    | error e => rw [hw] at hrun; simp at hrun
    | ok w =>
      rw [hw] at hrun
      dsimp only at hrun ⊢
      rcases hm : m.eval fuel w with ⟨m1, o⟩
      rw [hm] at hrun
      cases o with
      | ok => exact ih m1 m' hts hrun
      | err e => simp at hrun
      | panic s => simp at hrun
      | spin => simp at hrun

/-- A word that is not a named reference evaluates successfully whenever
the check passes. -/
theorem evalInner_ok_of_check (env : Env) (fuel : Nat) (stack : List Int)
    (w : Word) (hnc : w.isCustom = false)
    (hc : Machine.check ⟨env, stack⟩ w = none) :
    (evalInner env fuel stack w).2 = Outcome.ok := by
  cases w with
  | custom s => simp [Word.isCustom] at hnc
  | num n => simp [evalInner]
  | pop =>
    cases stack with
    | nil => simp [Machine.check] at hc
    | cons x rest => simp [evalInner]
  | dup =>
    cases stack with
    | nil => simp [Machine.check] at hc
    | cons x rest => simp [evalInner]
  | swap =>
    cases stack with
    | nil => simp [Machine.check] at hc
    | cons x s1 =>
      cases s1 with
      | nil => simp [Machine.check] at hc
      | cons y rest => simp [evalInner]
  | add =>
    cases stack with
    | nil => simp [Machine.check] at hc
    | cons x s1 =>
      cases s1 with
      | nil => simp [Machine.check] at hc
      | cons y rest => simp [evalInner]
  | sub =>
    cases stack with
    | nil => simp [Machine.check] at hc
    | cons x s1 =>
      cases s1 with
      | nil => simp [Machine.check] at hc
      | cons y rest => simp [evalInner]
  | mul =>
    cases stack with
    | nil => simp [Machine.check] at hc
    | cons x s1 =>
      cases s1 with
      | nil => simp [Machine.check] at hc
      | cons y rest => simp [evalInner]
  | div =>
    cases stack with
    | nil => simp [Machine.check] at hc
    | cons x s1 =>
      cases s1 with
      | nil => simp [Machine.check] at hc
      | cons y rest =>
        have hy : ¬ (y = 0) := by
          intro h0
          subst h0
          simp [Machine.check] at hc
          split at hc <;> simp_all
        simp [evalInner, hy]
  | mod =>
    cases stack with
    | nil => simp [Machine.check] at hc
    | cons x s1 =>
      cases s1 with
      | nil => simp [Machine.check] at hc
      | cons y rest =>
        have hy : ¬ (y = 0) := by
          intro h0
          subst h0
          simp [Machine.check] at hc
          split at hc <;> simp_all
        simp [evalInner, hy]
  | zero =>
    cases stack with
    | nil => simp [Machine.check] at hc
    | cons x s1 =>
      cases s1 with
      | nil => simp [Machine.check] at hc
      | cons y s2 =>
        cases s2 with
        | nil => simp [Machine.check] at hc
        | cons z rest => simp [evalInner]

end Drsm

namespace Drsm

/-! Claim theorems. -/

/-- C1: the claim states that every spelling in the fixed set drop, swap,
dup, add, sub, mul, div, mod, zero?, print lexes to a core token that
converts to the corresponding enumerated operation.  The lexing half holds
for all ten, and the conversion half for eight of them, but the tokens
`drop` and `print` fail conversion with an unknown-operation error: the
word enumeration spells the discard operation `pop` and has no print
variant at all, so the "unreachable" fallback arm of the conversion is
reached.  This theorem evaluates the code at all ten spellings. -/
theorem c1_core_spelling_conversion :
    (tokenize "swap" = Except.ok [Token.core "swap"]
      ∧ Word.tryFromToken (Token.core "swap") = Except.ok Word.swap)
    ∧ (tokenize "dup" = Except.ok [Token.core "dup"]
      ∧ Word.tryFromToken (Token.core "dup") = Except.ok Word.dup)
    ∧ (tokenize "add" = Except.ok [Token.core "add"]
      ∧ Word.tryFromToken (Token.core "add") = Except.ok Word.add)
    ∧ (tokenize "sub" = Except.ok [Token.core "sub"]
      ∧ Word.tryFromToken (Token.core "sub") = Except.ok Word.sub)
    ∧ (tokenize "mul" = Except.ok [Token.core "mul"]
      ∧ Word.tryFromToken (Token.core "mul") = Except.ok Word.mul)
    ∧ (tokenize "div" = Except.ok [Token.core "div"]
      ∧ Word.tryFromToken (Token.core "div") = Except.ok Word.div)
    ∧ (tokenize "mod" = Except.ok [Token.core "mod"]
      ∧ Word.tryFromToken (Token.core "mod") = Except.ok Word.mod)
    ∧ (tokenize "zero?" = Except.ok [Token.core "zero?"]
      ∧ Word.tryFromToken (Token.core "zero?") = Except.ok Word.zero)
    ∧ (tokenize "drop" = Except.ok [Token.core "drop"]
      ∧ Word.tryFromToken (Token.core "drop") = Except.error (Err.Unknown "drop"))
    ∧ (tokenize "print" = Except.ok [Token.core "print"]
      ∧ Word.tryFromToken (Token.core "print") = Except.error (Err.Unknown "print")) := by
  decide

/-- C2 (counterexample): a reachable state in which the check succeeds but
evaluation fails.  After `def a b` the environment stores the body `[b]`
for `a`; the check of the word `a` passes (arity 0, name defined) yet its
evaluation fails with unknown-operation for `b`, refuting the claimed
check-iff-eval equivalence. -/
theorem c2_check_eval_counterexample :
    readEval 1 Machine.default "def a b"
      = (⟨[("a", [Word.custom "b"])], []⟩, Outcome.ok)
    ∧ Machine.check ⟨[("a", [Word.custom "b"])], []⟩ (Word.custom "a") = none
    ∧ (Machine.eval ⟨[("a", [Word.custom "b"])], []⟩ 1 (Word.custom "a")).2
        = Outcome.err (Err.Unknown "b") := by
  decide

/-- C2 (amended): for every state and Word, success of evaluation implies
success of the check; and for every Word that is not a named reference the
check succeeds if and only if evaluation succeeds.  (For a named reference
the check can succeed while the stored body's evaluation fails.) -/
theorem c2_check_eval_amended (m : Machine) (fuel : Nat) (w : Word) :
    ((m.eval fuel w).2 = Outcome.ok → m.check w = none)
    ∧ (w.isCustom = false →
        (m.check w = none ↔ (m.eval fuel w).2 = Outcome.ok)) := by
  have himp : (m.eval fuel w).2 = Outcome.ok → m.check w = none := by
    intro h
    cases hc : m.check w with
    | none => rfl
    | some e => simp [Machine.eval, hc] at h
  refine ⟨himp, fun hnc => ⟨fun hc => ?_, himp⟩⟩
  have hok := evalInner_ok_of_check m.env fuel m.stack w hnc hc
  simp [Machine.eval, hc]
  exact hok

/-- C2 (witness): the amended equivalence at a concrete state and word. -/
theorem c2_check_eval_witness :
    (Machine.mk [] [1, 2]).check Word.add = none ↔
      ((Machine.mk [] [1, 2]).eval 1 Word.add).2 = Outcome.ok :=
  (c2_check_eval_amended (Machine.mk [] [1, 2]) 1 Word.add).2 (by decide)

/-- C3: after `def inc add` is accepted, evaluating `7 inc` does not fail
with a stack-too-small error as the claim states: the body word `add` is
evaluated by `eval_inner` directly, without any check, pops the single
element 7 and then panics on `stack.pop().expect("Internal error @ add 2")`
with the empty stack (a panic, unlike `Outcome.spin`, cannot be a fuel
artifact of the embedding). -/
theorem c3_body_word_panics :
    readEval 2 Machine.default "def inc add"
      = (⟨[("inc", [Word.add])], []⟩, Outcome.ok)
    ∧ readEval 2 ⟨[("inc", [Word.add])], []⟩ "7 inc"
      = (⟨[("inc", [Word.add])], []⟩,
          Outcome.panic "Internal error @ add 2") := by
  decide

/-- C4 (counterexample): after `def f 1 g` (with `g` undefined), the line
`f` fails with unknown-operation, but the machine is left with stack [1]:
the failing word `f` itself mutated the stack, because the successful
prefix of its body ran before the failure, refuting the claim that the
state equals the one after the last successfully completed operation of
the line (no top-level word had completed, so that state has an empty
stack). -/
theorem c4_failing_word_mutates :
    readEval 1 Machine.default "def f 1 g"
      = (⟨[("f", [Word.num 1, Word.custom "g"])], []⟩, Outcome.ok)
    ∧ readEval 1 ⟨[("f", [Word.num 1, Word.custom "g"])], []⟩ "f"
        = (⟨[("f", [Word.num 1, Word.custom "g"])], [1]⟩,
            Outcome.err (Err.Unknown "g"))
    ∧ (⟨[("f", [Word.num 1, Word.custom "g"])], [1]⟩ : Machine)
        ≠ ⟨[("f", [Word.num 1, Word.custom "g"])], []⟩ := by
  decide

/-- C4 (amended): a word of a line that fails its precondition check
performs no mutation: the token loop stops there and returns the machine
exactly as it was after the last successfully completed word.  (A named
reference that passes its check but fails during body evaluation instead
retains the mutations of its body's successful prefix, as the
counterexample shows.) -/
theorem c4_check_failure_no_mutation (fuel : Nat) (m : Machine) (t : Token)
    (ts : List Token) (w : Word) (e : Err)
    (hw : Word.tryFromToken t = Except.ok w) (hc : m.check w = some e) :
    readEvalTokens fuel m (t :: ts) = (m, Outcome.err e) := by
  have ht : ¬ (t = Token.defKw) := by
    intro h
    subst h
    simp [Word.tryFromToken] at hw
  rw [readEvalTokens, if_neg ht, hw]
  dsimp only
  simp [Machine.eval, hc]

/-- C4 (witness): `add` on an empty stack fails its check requiring depth
2 with 0 available, and the machine is returned unchanged. -/
theorem c4_check_failure_witness :
    readEvalTokens 1 Machine.default [Token.core "add"]
      = (Machine.default, Outcome.err (Err.Small "add" 2 0)) :=
  c4_check_failure_no_mutation 1 Machine.default (Token.core "add") []
    Word.add (Err.Small "add" 2 0) (by decide) (by decide)

/-- C5 (counterexample): `5 0 div` on an empty stack does not fail as the
claim states: the divisor is the second element from the top (5, pushed
first), so the check passes and the division computes 0 divided by 5,
leaving the stack holding 0. -/
theorem c5_five_zero_div_succeeds :
    readEval 1 Machine.default "5 0 div" = (⟨[], [0]⟩, Outcome.ok) := by
  decide

/-- C5 (amended): `0 5 div` on an initially empty stack fails with the
non-zero-operand-required error and leaves the stack unchanged, still
holding 0 and 5 (5 on top): the divisor — the second element from the top —
is checked before any value is popped. -/
theorem c5_zero_five_div_nnz :
    readEval 1 Machine.default "0 5 div"
      = (⟨[], [5, 0]⟩, Outcome.err (Err.NNZ "div")) := by
  decide

/-- C6 (counterexample): a `def` token after another token does not make
the line fail with the reserved-word error as the claim states: the line
`1 def x add` succeeds, pushing 1 and then defining `x` with body `[add]`. -/
theorem c6_def_mid_line_defines :
    readEval 1 Machine.default "1 def x add"
      = (⟨[("x", [Word.add])], [1]⟩, Outcome.ok) := by
  decide

/-- C6 (amended): the definition form is recognized whenever the `def`
token is reached in evaluation position, at any point of the line: after a
successfully evaluated `def`-free prefix, the rest of the line is handed
to the definition parser.  The reserved-word failure arises only where the
keyword is converted as a Word, i.e. as a definition's name or inside a
definition's body. -/
theorem c6_def_recognized_mid_line (fuel : Nat) (m m' : Machine)
    (pre rest : List Token) (hnd : Token.defKw ∉ pre)
    (hok : readEvalTokens fuel m pre = (m', Outcome.ok)) :
    readEvalTokens fuel m (pre ++ Token.defKw :: rest) = defHandle m' rest
    ∧ Word.tryFromToken Token.defKw = Except.error Err.Reserved := by
  refine ⟨?_, rfl⟩
  rw [readEvalTokens_append fuel (Token.defKw :: rest) pre m m' hnd hok]
  rw [readEvalTokens, if_pos rfl]

/-- C6 (witness): the amended statement at the tokens of `1 def x add`. -/
theorem c6_def_recognized_witness :
    readEvalTokens 1 Machine.default
        ([Token.num 1] ++ Token.defKw :: [Token.custom "x", Token.core "add"])
      = defHandle ⟨[], [1]⟩ [Token.custom "x", Token.core "add"] :=
  (c6_def_recognized_mid_line 1 Machine.default ⟨[], [1]⟩ [Token.num 1]
    [Token.custom "x", Token.core "add"] (by decide) (by decide)).1

/-- C7: the display form of `Word::Pop` is `pop`, which the lexer — whose
core regex recognizes `drop`, not `pop` — tokenizes as a single custom
token; that token converts back to the word `custom "pop"`, which is not
equal to `Word.pop`.  The claimed round-trip therefore fails at the
constructible word `Word::Pop`. -/
theorem c7_pop_roundtrip_fails :
    Word.toString Word.pop = "pop"
    ∧ tokenize (Word.toString Word.pop) = Except.ok [Token.custom "pop"]
    ∧ Word.tryFromToken (Token.custom "pop") = Except.ok (Word.custom "pop")
    ∧ Word.custom "pop" ≠ Word.pop := by
  decide

/-- C8: a definition whose body words contain the name being defined as a
custom word is rejected with the self-reference error and the machine —
environment included — is left unchanged. -/
theorem c8_self_reference_rejected (fuel : Nat) (m : Machine) (nt : Token)
    (body : List Token) (k : String) (us : List Word)
    (hname : (Word.tryFromToken nt).bind Word.intoName = Except.ok k)
    (hbody : body.mapM Word.tryFromToken = Except.ok us)
    (hmem : Word.custom k ∈ us) :
    readEvalTokens fuel m (Token.defKw :: nt :: body)
      = (m, Outcome.err (Err.SelfRef k)) := by
  rw [readEvalTokens, if_pos rfl, defHandle]
  rw [hname, hbody]
  have hne : us.isEmpty = false := by
    cases us with
    | nil => cases hmem
    | cons a l => rfl
  have hany : us.any (fun u => wordEqStr u k) = true :=
    List.any_eq_true.mpr ⟨Word.custom k, hmem, by simp [wordEqStr]⟩
  simp [hne, hany]

/-- C8 (witness): `def loop loop` tokenizes to the definition of `loop`
with body `[loop]` and is rejected with the self-reference error, the
machine left in its default state. -/
theorem c8_self_reference_witness :
    tokenize "def loop loop"
      = Except.ok [Token.defKw, Token.custom "loop", Token.custom "loop"]
    ∧ readEval 1 Machine.default "def loop loop"
        = (Machine.default, Outcome.err (Err.SelfRef "loop")) := by
  have ht : tokenize "def loop loop"
      = Except.ok [Token.defKw, Token.custom "loop", Token.custom "loop"] := by
    decide
  refine ⟨ht, ?_⟩
  rw [readEval, ht]
  exact c8_self_reference_rejected 1 Machine.default (Token.custom "loop")
    [Token.custom "loop"] "loop" [Word.custom "loop"]
    (by decide) (by decide) (by decide)

/-- C9: with i64::MIN on top of the stack and -1 as the second element
(the divisor), the divisor check passes and `div` succeeds pushing
i64::MIN while `mod` succeeds pushing 0: the overflowing case of signed
division wraps, extending the wrapping policy of add/sub/mul. -/
theorem c9_div_mod_wrap_min (env : Env) (rest : List Int) (fuel : Nat) :
    Machine.eval ⟨env, i64Min :: -1 :: rest⟩ fuel Word.div
      = (⟨env, i64Min :: rest⟩, Outcome.ok)
    ∧ Machine.eval ⟨env, i64Min :: -1 :: rest⟩ fuel Word.mod
      = (⟨env, 0 :: rest⟩, Outcome.ok) := by
  have hlen : ¬ ((i64Min :: -1 :: rest : List Int).length < 2) := by
    simp only [List.length_cons]
    omega
  have hdiv : Machine.check ⟨env, i64Min :: -1 :: rest⟩ Word.div = none := by
    simp [Machine.check, hlen, Word.isCustom, i64Min]
  have hmod : Machine.check ⟨env, i64Min :: -1 :: rest⟩ Word.mod = none := by
    simp [Machine.check, hlen, Word.isCustom, i64Min]
  constructor
  · simp [Machine.eval, hdiv, evalInner]
    decide
  · simp [Machine.eval, hmod, evalInner]
    decide

/-- C10: a line whose tokens contain no `def` keyword leaves the
environment unchanged whether its evaluation succeeds or fails: word
evaluation can mutate only the stack. -/
theorem c10_env_unchanged_without_def (fuel : Nat) (m : Machine)
    (s : String) (ts : List Token) (hts : tokenize s = Except.ok ts)
    (hnd : Token.defKw ∉ ts) :
    ((readEval fuel m s).1).env = m.env := by
  rw [readEval, hts]
  exact readEvalTokens_env fuel ts m hnd

/-- C10 (witness): evaluating `4 sq` on a machine that defines `sq` leaves
the environment unchanged. -/
theorem c10_env_unchanged_witness :
    ((readEval 2 ⟨[("sq", [Word.dup, Word.mul])], []⟩ "4 sq").1).env
      = [("sq", [Word.dup, Word.mul])] :=
  c10_env_unchanged_without_def 2 ⟨[("sq", [Word.dup, Word.mul])], []⟩
    "4 sq" [Token.num 4, Token.custom "sq"] (by decide) (by decide)

end Drsm
